import Mathlib

/-!
Shallow embedding of the `rpa_challenge` repository:
`src/utils.py` (spreadsheet loading and header normalization) and
`src/automation.py` (the Playwright browser-driving loop), together with
theorems checking the repository's specification claims.
-/

namespace RPAChallenge

/-! ### Python string primitives -/

/-- Whitespace test used to model Python's `str.isspace` / `str.strip`
(ASCII whitespace approximation). -/
def pyIsSpace (c : Char) : Bool := c.isWhitespace

/-- Python `str.strip()` on the underlying character list:
drop leading whitespace, then drop trailing whitespace. -/
def stripChars (l : List Char) : List Char :=
  (l.dropWhile pyIsSpace).rdropWhile pyIsSpace

/-- Python `s.strip()`. -/
def pyStrip (s : String) : String := String.mk (stripChars s.data)

/-- Python `str.split()` on a character list: the maximal nonempty runs
of non-whitespace characters, in order (`acc` carries the reversed
current run). -/
def pySplitWsAux : List Char → List Char → List (List Char)
  | [], acc => if acc.isEmpty then [] else [acc.reverse]
  | c :: rest, acc =>
    if pyIsSpace c then
      if acc.isEmpty then pySplitWsAux rest []
      else acc.reverse :: pySplitWsAux rest []
    else pySplitWsAux rest (c :: acc)

/-- Python `s.split()` with no separator argument. -/
def pySplitWs (l : List Char) : List (List Char) := pySplitWsAux l []

/-- Python `" ".join(words)` on character lists. -/
def joinSpace : List (List Char) → List Char
  | [] => []
  | [w] => w
  | w :: ws => w ++ ' ' :: joinSpace ws

/-- Python `" ".join(s.split())`: split on whitespace runs, rejoin with
single spaces. -/
def pySplitJoin (s : String) : String := String.mk (joinSpace (pySplitWs s.data))

/-! ### `src/utils.py` -/

/-- `_tok` from `src/utils.py`: lowercase, keep only alphanumerics and
whitespace, collapse whitespace runs to single spaces. -/
def tok (s : String) : String :=
  pySplitJoin (String.mk ((s.data.map Char.toLower).filter
    (fun c => c.isAlphanum || pyIsSpace c)))

/-- `_CANONICAL_BY_TOKEN` from `src/utils.py`: header-token spellings
mapped to canonical field names. -/
def CANONICAL_BY_TOKEN : List (String × String) :=
  [("firstname", "First Name"),
   ("first name", "First Name"),
   ("lastname", "Last Name"),
   ("last name", "Last Name"),
   ("companyname", "Company Name"),
   ("company name", "Company Name"),
   ("roleincompany", "Role in Company"),
   ("role in company", "Role in Company"),
   ("address", "Address"),
   ("email", "Email"),
   ("phonenumber", "Phone Number"),
   ("phone number", "Phone Number"),
   ("phone", "Phone Number")]

/-- `_CANONICAL_BY_TOKEN.get(t)`. -/
def canonicalByToken (t : String) : Option String := CANONICAL_BY_TOKEN.lookup t

/-- The seven canonical field names. -/
def canonicalNames : List String :=
  ["First Name", "Last Name", "Company Name", "Role in Company",
   "Address", "Email", "Phone Number"]

/-- `_rename_to_canonical` from `src/utils.py`, applied to one column
header: the canonical name for its token if known, else the stripped
header itself. -/
def renameHeader (col : String) : String :=
  (canonicalByToken (tok col)).getD (pyStrip col)

/-- A spreadsheet as read with `dtype=str`: a header row and data rows of
cells, where `none` models a missing / NaN cell. -/
structure Sheet where
  headers : List String
  cells : List (List (Option String))

/-- The per-cell processing of `read_rows`: `fillna("")` then `.strip()`. -/
def procCell (c : Option String) : String := pyStrip (c.getD "")

/-- One output record of `read_rows`: the renamed headers paired, in header
order, with the correspondingly positioned processed cells (a short row is
padded with NaN, as pandas does). -/
def rowRecord (hs : List String) (r : List (Option String)) : List (String × String) :=
  hs.enum.map (fun p => (renameHeader p.2, procCell ((r.get? p.1).getD none)))

/-- `read_rows` from `src/utils.py`: rename headers to canonical names,
fill NaNs with `""`, strip every cell, return the records in file order,
truncated to `limit` rows unless `limit` is `None`. -/
def read_rows (s : Sheet) (limit : Option Nat := some 10) : List (List (String × String)) :=
  let rows := s.cells.map (rowRecord s.headers)
  match limit with
  | none => rows
  | some n => rows.take n

/-! ### Basic lemmas on the string primitives -/

theorem head?_of_isPrefix {α : Type} {a b : List α} (h : a <+: b) (ha : a ≠ []) :
    b.head? = a.head? := by
  obtain ⟨t, rfl⟩ := h
  cases a with
  | nil => exact absurd rfl ha
  | cons x xs => rfl

theorem stripChars_head_not_space (l : List Char) (c : Char)
    (h : (stripChars l).head? = some c) : pyIsSpace c = false := by
  unfold stripChars at h
  have hpre := List.rdropWhile_prefix pyIsSpace (l.dropWhile pyIsSpace)
  have hne : (l.dropWhile pyIsSpace).rdropWhile pyIsSpace ≠ [] := by
    intro hnil
    rw [hnil] at h
    simp at h
  have hhead := head?_of_isPrefix hpre hne
  rw [h] at hhead
  have hfind : l.find? (fun x => !pyIsSpace x) = some c := by
    rw [List.find?_not_eq_head?_dropWhile]
    exact hhead
  have := List.find?_some hfind
  simpa using this

theorem stripChars_idempotent (l : List Char) : stripChars (stripChars l) = stripChars l := by
  unfold stripChars
  have hdrop : (stripChars l).dropWhile pyIsSpace = stripChars l := by
    rw [List.dropWhile_eq_self_iff]
    intro hl hp
    have hne : stripChars l ≠ [] := by
      intro hnil
      rw [hnil] at hl
      simp at hl
    have hh : (stripChars l).head? = some ((stripChars l).get ⟨0, hl⟩) := by
      rw [List.get_mk_zero, List.head?_eq_head]
    have := stripChars_head_not_space l _ hh
    rw [hp] at this
    simp at this
  rw [show (stripChars l) = (l.dropWhile pyIsSpace).rdropWhile pyIsSpace from rfl] at hdrop
  rw [hdrop]
  exact List.rdropWhile_idempotent pyIsSpace (l.dropWhile pyIsSpace)

theorem pyStrip_idempotent (s : String) : pyStrip (pyStrip s) = pyStrip s := by
  unfold pyStrip
  rw [show (String.mk (stripChars s.data)).data = stripChars s.data from rfl,
    stripChars_idempotent]

/-! ### `src/automation.py`: data model

The browser-driving run is embedded as a generator of a trace of browser
commands (`Ev`).  A step oracle `o : Nat → Bool` says whether the k-th
fallible primitive of the run raises an exception when attempted;
`o k = true` models a raise (for the initial `page.goto`, a
`PWTimeoutError`).  Attempted commands appear in the trace even when they
raise. -/

/-- A Playwright locator, as used by the source. -/
inductive Sel where
  | ngName (s : String)
  | roleButton (s : String)
  deriving DecidableEq, Repr

/-- One browser / filesystem command issued by `run_rpa_challenge`. -/
inductive Ev where
  | mkdirEv (path : String)
  | launch (headless : Bool)
  | newContext
  | tracingStart
  | newPage
  | goto (waitUntil : String) (timeoutMs : Nat)
  | waitVisible (sel : Sel) (timeoutMs : Nat)
  | locate (sel : Sel)
  | click (sel : Sel)
  | fill (sel : Sel) (value : String) (timeoutMs : Nat)
  | waitFirstNameEmpty (timeoutMs : Nat)
  | screenshot (path : String)
  | readBanner
  | tracingStop (path : Option String)
  | closeContext
  | closeBrowser
  | writeFile (path : String)
  deriving DecidableEq, Repr

/-- `FIELD_MAP` from `src/automation.py`: spreadsheet header to
`ng-reflect-name` attribute value. -/
def FIELD_MAP : List (String × String) :=
  [("First Name", "labelFirstName"),
   ("Last Name", "labelLastName"),
   ("Company Name", "labelCompanyName"),
   ("Role in Company", "labelRole"),
   ("Address", "labelAddress"),
   ("Email", "labelEmail"),
   ("Phone Number", "labelPhone")]

/-- A loaded row, as produced by `read_rows`. -/
abbrev Row := List (String × String)

/-- `(row.get(col) or "").strip()` from `_fill_round`. -/
def rowValue (row : Row) (col : String) : String :=
  pyStrip ((row.lookup col).getD "")

/-- The fill command for one `FIELD_MAP` entry in `_fill_round`:
nothing when the row's stripped value is empty, else one `fill` on the
`ng-reflect-name` locator. -/
def fillChunk (row : Row) (t : Nat) (cr : String × String) : List Ev :=
  if rowValue row cr.1 = "" then []
  else [Ev.fill (Sel.ngName cr.2) (rowValue row cr.1) t]

/-- `_fill_round` from `src/automation.py`: pre-cache a locator per
`FIELD_MAP` entry, fill each nonempty value, click Submit, wait until the
first-name input reads empty. -/
def fillRound (row : Row) (t : Nat) : List Ev :=
  (FIELD_MAP.map (fun cr => Ev.locate (Sel.ngName cr.2)))
    ++ (FIELD_MAP.map (fillChunk row t)).flatten
    ++ [Ev.click (Sel.roleButton "Submit"), Ev.waitFirstNameEmpty t]

/-- The `for i, row in enumerate(rows, 1)` loop body sequence of
`run_rpa_challenge`: each round's commands, with an extra
wait-for-cleared after every round except the last. -/
def roundsTrace : List Row → Nat → List Ev
  | [], _ => []
  | [r], t => fillRound r t
  | r :: rest, t => fillRound r t ++ Ev.waitFirstNameEmpty t :: roundsTrace rest t

/-- `round_timeout` from `run_rpa_challenge`. -/
def roundTimeout (perf : Bool) : Nat := if perf then 5000 else 10000

/-- The run summary dictionary (wall-clock `elapsed_sec` is not modelled). -/
structure Summary where
  ok : Bool
  rounds : Nat
  headless : Bool
  perf : Bool
  site_timer : String
  deriving DecidableEq, Repr

/-- Outcome of a run: normal return, `SystemExit` on an empty sheet, or a
propagated exception. -/
inductive RunResult where
  | ok (s : Summary)
  | sysExit
  | exn
  deriving DecidableEq, Repr

/-- The cleanup commands of the `except`/`finally` blocks on a failing
run: best-effort error screenshot (only when the page object exists),
trace dump, context close, browser close; each is wrapped in
`try/except: pass`, so all are attempted. -/
def cleanupFail (pageExists : Bool) : List Ev :=
  (if pageExists then [Ev.screenshot "screenshots/error.png"] else [])
    ++ [Ev.tracingStop (some "screenshots/trace.zip"), Ev.closeContext, Ev.closeBrowser]

/-- The in-`try` command sequence after navigation: click Start, run the
rounds, take the result screenshot. -/
def mainSteps (rows : List Row) (t : Nat) : List Ev :=
  Ev.click (Sel.roleButton "Start") :: roundsTrace rows t
    ++ [Ev.screenshot "screenshots/result.png"]

/-- Execute a straight sequence of fallible commands starting at oracle
index `k`: the trace of attempted commands and whether one raised
(stopping the sequence). -/
def execSeq (o : Nat → Bool) : Nat → List Ev → List Ev × Bool
  | _, [] => ([], false)
  | k, e :: rest =>
    if o k then ([e], true)
    else
      let r := execSeq o (k + 1) rest
      (e :: r.1, r.2)

/-- The tail of a successful run: read the site banner (failure swallowed),
stop tracing without a path, close context and browser (each failure
swallowed), write the JSON summary. -/
def successTail : List Ev :=
  [Ev.readBanner, Ev.tracingStop none, Ev.closeContext, Ev.closeBrowser,
   Ev.writeFile "screenshots/run_summary.json"]

/-- The command sequence after a successful navigation, given the trace
prefix so far and the next oracle index.  Mirrors lines 73–153 of
`src/automation.py` from the Start click onward. -/
def afterNav (rows : List Row) (headless perf : Bool) (banner : Option String)
    (o : Nat → Bool) (pfx : List Ev) (k : Nat) : List Ev × RunResult :=
  let main := mainSteps rows (roundTimeout perf)
  let r := execSeq o k main
  if r.2 then (pfx ++ r.1 ++ cleanupFail true, RunResult.exn)
  else
    let k2 := k + main.length
    let site := if o k2 then "" else pyStrip (banner.getD "")
    let tr := pfx ++ r.1 ++ successTail
    if o (k2 + 4) then (tr, RunResult.exn)
    else
      (tr, RunResult.ok
        { ok := true, rounds := rows.length, headless := headless,
          perf := perf, site_timer := site })

/-- `run_rpa_challenge` from `src/automation.py`, over already-loaded
rows: the trace of attempted commands and the outcome.  `banner` is the
text content the results banner would yield.  Oracle indices: 0 mkdir,
1 launch, 2 new_context, 3 tracing.start, 4 new_page, 5 first goto
(`domcontentloaded`, 30000), then on its timeout 6 retry goto (`commit`,
45000) and 7 the Start-button wait. -/
def runLoaded (rows : List Row) (headless perf : Bool) (banner : Option String)
    (o : Nat → Bool) : List Ev × RunResult :=
  if rows.isEmpty then ([], RunResult.sysExit)
  else
    if o 0 then ([Ev.mkdirEv "screenshots"], RunResult.exn)
    else
      let pre := [Ev.mkdirEv "screenshots", Ev.launch headless, Ev.newContext,
        Ev.tracingStart]
      if o 1 then (pre.take 2, RunResult.exn)
      else if o 2 then (pre.take 3, RunResult.exn)
      else if o 3 then (pre, RunResult.exn)
      else if o 4 then (pre ++ [Ev.newPage] ++ cleanupFail false, RunResult.exn)
      else
        let pre2 := pre ++ [Ev.newPage]
        let g1 := Ev.goto "domcontentloaded" 30000
        if o 5 then
          let g2 := Ev.goto "commit" 45000
          if o 6 then (pre2 ++ [g1, g2] ++ cleanupFail true, RunResult.exn)
          else if o 7 then
            (pre2 ++ [g1, g2, Ev.waitVisible (Sel.roleButton "Start") 30000]
              ++ cleanupFail true, RunResult.exn)
          else
            afterNav rows headless perf banner o
              (pre2 ++ [g1, g2, Ev.waitVisible (Sel.roleButton "Start") 30000]) 8
        else afterNav rows headless perf banner o (pre2 ++ [g1]) 6

/-- `run_rpa_challenge(file_path, ...)` proper: load the rows with
`read_rows` at its default `limit=10`, then drive the browser. -/
def run_rpa_challenge (s : Sheet) (headless perf : Bool) (banner : Option String)
    (o : Nat → Bool) : List Ev × RunResult :=
  runLoaded (read_rows s) headless perf banner o

/-- The intended straight-line command sequence of a run that encounters
no failure other than possibly the first navigation timing out. -/
def intendedTrace (rows : List Row) (headless perf : Bool) (navSlow : Bool) : List Ev :=
  [Ev.mkdirEv "screenshots", Ev.launch headless, Ev.newContext, Ev.tracingStart,
   Ev.newPage]
    ++ (if navSlow then
          [Ev.goto "domcontentloaded" 30000, Ev.goto "commit" 45000,
           Ev.waitVisible (Sel.roleButton "Start") 30000]
        else [Ev.goto "domcontentloaded" 30000])
    ++ mainSteps rows (roundTimeout perf)
    ++ successTail

/-! ### Observations on traces -/

/-- Is this command a navigation? -/
def isGoto : Ev → Bool
  | Ev.goto _ _ => true
  | _ => false

/-- Is this command a fill? -/
def isFill : Ev → Bool
  | Ev.fill _ _ _ => true
  | _ => false

/-- Is this command a locator creation? -/
def isLocate : Ev → Bool
  | Ev.locate _ => true
  | _ => false

/-- Is this command a click on the Submit button? -/
def isSubmitClick : Ev → Bool
  | Ev.click (Sel.roleButton "Submit") => true
  | _ => false

/-- Is this command a click on the Start button? -/
def isStartClick : Ev → Bool
  | Ev.click (Sel.roleButton "Start") => true
  | _ => false

/-- Is this command a browser launch? -/
def isLaunch : Ev → Bool
  | Ev.launch _ => true
  | _ => false

/-- Is this command a context creation? -/
def isNewContextEv : Ev → Bool
  | Ev.newContext => true
  | _ => false

/-- Is this command a page creation? -/
def isNewPageEv : Ev → Bool
  | Ev.newPage => true
  | _ => false

/-- Number of commands in the trace satisfying `p`. -/
def countP (p : Ev → Bool) (tr : List Ev) : Nat := (tr.filter p).length

/-- The files a single command writes (screenshots, trace archive, JSON
summary); directory creation is not a file write. -/
def writesOf : Ev → List String
  | Ev.screenshot p => [p]
  | Ev.tracingStop (some p) => [p]
  | Ev.writeFile p => [p]
  | _ => []

/-- Files written by the commands of a trace, in order. -/
def filesWritten (tr : List Ev) : List String := (tr.map writesOf).flatten

/-- Form state: the value of each input, keyed by `ng-reflect-name`. -/
def applyEv (st : String → String) : Ev → (String → String)
  | Ev.fill (Sel.ngName n) v _ => fun m => if m = n then v else st m
  | _ => st

/-- Run the fill commands of a trace over a form state. -/
def runForm (st : String → String) : List Ev → (String → String)
  | [] => st
  | e :: rest => runForm (applyEv st e) rest

/-- The empty form every round starts from. -/
def emptyForm : String → String := fun _ => ""

/-- Is this command the wait for the first-name input to read empty? -/
def isWaitCleared : Ev → Bool
  | Ev.waitFirstNameEmpty _ => true
  | _ => false

/-- Scanner for the submit/wait discipline: `pending` records that a
Submit click has happened with no wait-for-cleared yet; filling or
locating a field while pending would start a round before the previous
round's wait observed the form cleared. -/
def submitsAwaited (pending : Bool) : List Ev → Bool
  | [] => true
  | e :: rest =>
    if isSubmitClick e then submitsAwaited true rest
    else if isWaitCleared e then submitsAwaited false rest
    else if isFill e || isLocate e then !pending && submitsAwaited pending rest
    else submitsAwaited pending rest

/-! ### Trace lemmas -/

theorem countP_append (p : Ev → Bool) (a b : List Ev) :
    countP p (a ++ b) = countP p a + countP p b := by
  simp [countP, List.filter_append]

theorem countP_eq_zero (p : Ev → Bool) (l : List Ev) (h : ∀ e ∈ l, p e = false) :
    countP p l = 0 := by
  simp only [countP, List.length_eq_zero]
  rw [List.filter_eq_nil_iff]
  intro a ha
  simp [h a ha]

theorem countP_le_of_front {p : Ev → Bool} {a b : List Ev} (h : a <+: b) :
    countP p a ≤ countP p b := by
  unfold countP
  exact (h.sublist.filter p).length_le

theorem roundsTrace_nil (t : Nat) : roundsTrace [] t = [] := rfl

theorem roundsTrace_single (r : Row) (t : Nat) : roundsTrace [r] t = fillRound r t := rfl

theorem roundsTrace_cons2 (r r2 : Row) (rest : List Row) (t : Nat) :
    roundsTrace (r :: r2 :: rest) t =
      fillRound r t ++ Ev.waitFirstNameEmpty t :: roundsTrace (r2 :: rest) t := rfl

theorem filesWritten_append (a b : List Ev) :
    filesWritten (a ++ b) = filesWritten a ++ filesWritten b := by
  simp [filesWritten]

/-- Every command of the fill-chunks block is a `fill` on an
`ng-reflect-name` locator whose value comes from the row. -/
theorem mem_chunks (row : Row) (t : Nat) (fm : List (String × String)) (e : Ev)
    (h : e ∈ (fm.map (fillChunk row t)).flatten) :
    ∃ cr ∈ fm, e = Ev.fill (Sel.ngName cr.2) (rowValue row cr.1) t ∧
      rowValue row cr.1 ≠ "" := by
  induction fm with
  | nil => simp at h
  | cons c rest ih =>
    rw [List.map_cons, List.flatten_cons, List.mem_append] at h
    rcases h with h | h
    · unfold fillChunk at h
      by_cases hv : rowValue row c.1 = ""
      · simp [hv] at h
      · rw [if_neg hv] at h
        simp only [List.mem_singleton] at h
        exact ⟨c, List.mem_cons_self c rest, h, hv⟩
    · obtain ⟨cr, hcr, he⟩ := ih h
      exact ⟨cr, List.mem_cons_of_mem c hcr, he⟩

/-- Shape of the commands of one round. -/
theorem mem_fillRound (row : Row) (t : Nat) (e : Ev) (h : e ∈ fillRound row t) :
    isLocate e = true ∨ isFill e = true ∨
      e = Ev.click (Sel.roleButton "Submit") ∨ e = Ev.waitFirstNameEmpty t := by
  unfold fillRound at h
  rw [List.append_assoc, List.mem_append, List.mem_append] at h
  rcases h with h | h | h
  · left
    obtain ⟨cr, _, rfl⟩ := List.mem_map.mp h
    rfl
  · right; left
    obtain ⟨cr, _, rfl, _⟩ := mem_chunks row t FIELD_MAP e h
    rfl
  · right; right
    simpa using h

/-- Counting a predicate over one round, when the predicate ignores
locators and fills. -/
theorem countP_fillRound (p : Ev → Bool) (row : Row) (t : Nat)
    (hloc : ∀ s, p (Ev.locate s) = false)
    (hfill : ∀ s v u, p (Ev.fill s v u) = false) :
    countP p (fillRound row t) =
      countP p [Ev.click (Sel.roleButton "Submit"), Ev.waitFirstNameEmpty t] := by
  unfold fillRound
  rw [List.append_assoc, countP_append, countP_append]
  have h1 : countP p (FIELD_MAP.map (fun cr => Ev.locate (Sel.ngName cr.2))) = 0 := by
    apply countP_eq_zero
    intro e he
    obtain ⟨cr, _, rfl⟩ := List.mem_map.mp he
    exact hloc _
  have h2 : countP p ((FIELD_MAP.map (fillChunk row t)).flatten) = 0 := by
    apply countP_eq_zero
    intro e he
    obtain ⟨cr, _, rfl, _⟩ := mem_chunks row t FIELD_MAP e he
    exact hfill _ _ _
  rw [h1, h2]
  simp

/-- One Submit click per round. -/
theorem submitClick_fillRound (row : Row) (t : Nat) :
    countP isSubmitClick (fillRound row t) = 1 := by
  rw [countP_fillRound isSubmitClick row t (fun _ => rfl) (fun _ _ _ => rfl)]
  rfl

/-- Submit clicks over the loop: one per row. -/
theorem submitClick_roundsTrace (rows : List Row) (t : Nat) :
    countP isSubmitClick (roundsTrace rows t) = rows.length := by
  induction rows with
  | nil => rfl
  | cons r rest ih =>
    cases rest with
    | nil => simpa using submitClick_fillRound r t
    | cons r2 rest2 =>
      rw [roundsTrace_cons2, countP_append]
      rw [submitClick_fillRound]
      have : countP isSubmitClick (Ev.waitFirstNameEmpty t :: roundsTrace (r2 :: rest2) t)
          = countP isSubmitClick (roundsTrace (r2 :: rest2) t) := by
        simp [countP, List.filter, isSubmitClick]
      rw [this, ih]
      simp [List.length_cons, Nat.add_comm]

/-- Counting over the loop, for predicates that ignore every command a
round or the inter-round wait can produce. -/
theorem countP_roundsTrace_zero (p : Ev → Bool) (rows : List Row) (t : Nat)
    (hloc : ∀ s, p (Ev.locate s) = false)
    (hfill : ∀ s v u, p (Ev.fill s v u) = false)
    (hclick : p (Ev.click (Sel.roleButton "Submit")) = false)
    (hwait : ∀ u, p (Ev.waitFirstNameEmpty u) = false) :
    countP p (roundsTrace rows t) = 0 := by
  induction rows with
  | nil => rfl
  | cons r rest ih =>
    cases rest with
    | nil =>
      rw [roundsTrace_single, countP_fillRound p r t hloc hfill]
      simp [countP, List.filter, hclick, hwait]
    | cons r2 rest2 =>
      rw [roundsTrace_cons2, countP_append, countP_fillRound p r t hloc hfill]
      have : countP p (Ev.waitFirstNameEmpty t :: roundsTrace (r2 :: rest2) t) = 0 := by
        simp only [countP, List.filter, hwait]
        exact ih
      rw [this]
      simp [countP, List.filter, hclick, hwait]

/-- No file is written during the loop. -/
theorem filesWritten_roundsTrace (rows : List Row) (t : Nat) :
    filesWritten (roundsTrace rows t) = [] := by
  induction rows with
  | nil => rfl
  | cons r rest ih =>
    have hfr : filesWritten (fillRound r t) = [] := by
      unfold filesWritten
      rw [List.flatten_eq_nil_iff]
      intro l hl
      obtain ⟨e, he, rfl⟩ := List.mem_map.mp hl
      rcases mem_fillRound r t e he with h | h | h | h
      · cases e <;> simp_all [isLocate, writesOf]
      · cases e <;> simp_all [isFill, writesOf]
      · rw [h]; rfl
      · rw [h]; rfl
    cases rest with
    | nil => simpa [roundsTrace_single] using hfr
    | cons r2 rest2 =>
      rw [roundsTrace_cons2, filesWritten_append, hfr]
      rw [show filesWritten (Ev.waitFirstNameEmpty t :: roundsTrace (r2 :: rest2) t)
          = filesWritten (roundsTrace (r2 :: rest2) t) from rfl, ih]
      rfl

/-! ### Run-level structure -/

theorem execSeq_front (o : Nat → Bool) (k : Nat) (es : List Ev) :
    (execSeq o k es).1 <+: es := by
  induction es generalizing k with
  | nil => simp [execSeq]
  | cons e rest ih =>
    unfold execSeq
    by_cases h : o k
    · simp only [h, if_true]
      exact ⟨rest, rfl⟩
    · simp only [h, if_false]
      exact (List.cons_prefix_cons).mpr ⟨rfl, ih (k + 1)⟩

theorem execSeq_ok (o : Nat → Bool) (k : Nat) (es : List Ev)
    (h : (execSeq o k es).2 = false) : (execSeq o k es).1 = es := by
  induction es generalizing k with
  | nil => simp [execSeq]
  | cons e rest ih =>
    unfold execSeq at h ⊢
    by_cases hk : o k
    · simp [hk] at h
    · simp only [hk] at h ⊢
      simp only [Bool.false_eq_true, if_false] at h ⊢
      rw [ih (k + 1) h]

theorem execSeq_all_false (o : Nat → Bool) (k : Nat) (es : List Ev)
    (h : ∀ i, o i = false) : execSeq o k es = (es, false) := by
  induction es generalizing k with
  | nil => rfl
  | cons e rest ih =>
    unfold execSeq
    rw [h k]
    simp [ih (k + 1)]

/-- The possible cleanup suffixes a trace can end in. -/
def isCleanupSuffix (rest : List Ev) : Prop :=
  rest = [] ∨ rest = cleanupFail true ∨ rest = cleanupFail false

/-- Every trace of `afterNav` is a prefix of the intended straight-line
sequence followed by at most the fixed failure cleanup. -/
theorem afterNav_decomp (rows : List Row) (hd pf : Bool) (banner : Option String)
    (o : Nat → Bool) (pfx : List Ev) (k : Nat) :
    ∃ n rest, (afterNav rows hd pf banner o pfx k).1 =
        (pfx ++ (mainSteps rows (roundTimeout pf) ++ successTail)).take n ++ rest ∧
      isCleanupSuffix rest := by
  unfold afterNav
  by_cases hf : (execSeq o k (mainSteps rows (roundTimeout pf))).2
  · obtain ⟨t2, ht2⟩ := execSeq_front o k (mainSteps rows (roundTimeout pf))
    have hpre : pfx ++ (execSeq o k (mainSteps rows (roundTimeout pf))).1 <+:
        pfx ++ (mainSteps rows (roundTimeout pf) ++ successTail) := by
      refine ⟨t2 ++ successTail, ?_⟩
      rw [List.append_assoc,
        ← List.append_assoc (execSeq o k (mainSteps rows (roundTimeout pf))).1, ht2]
    refine ⟨(pfx ++ (execSeq o k (mainSteps rows (roundTimeout pf))).1).length,
      cleanupFail true, ?_, Or.inr (Or.inl rfl)⟩
    simp only [hf, if_true]
    rw [← List.prefix_iff_eq_take.mp hpre, List.append_assoc]
  · have hf2 : (execSeq o k (mainSteps rows (roundTimeout pf))).2 = false := by
      simpa using hf
    have hmain := execSeq_ok o k (mainSteps rows (roundTimeout pf)) hf2
    refine ⟨(pfx ++ (mainSteps rows (roundTimeout pf) ++ successTail)).length, [],
      ?_, Or.inl rfl⟩
    rw [List.take_length, List.append_nil]
    simp only [hf2, Bool.false_eq_true, if_false, hmain]
    split <;> simp [List.append_assoc]

/-- Every trace of `runLoaded` is a prefix of the intended straight-line
sequence (with the navigation retry exactly when the first `goto` times
out) followed by at most the fixed failure cleanup.  In particular no
command is ever re-attempted: the only repetition the straight line
contains is the single sanctioned navigation retry. -/
theorem runLoaded_decomp (rows : List Row) (hd pf : Bool) (banner : Option String)
    (o : Nat → Bool) :
    ∃ n rest, (runLoaded rows hd pf banner o).1 =
        (intendedTrace rows hd pf (o 5)).take n ++ rest ∧
      isCleanupSuffix rest := by
  unfold runLoaded
  by_cases h0 : rows.isEmpty
  · exact ⟨0, [], by simp [h0], Or.inl rfl⟩
  all_goals simp only [h0, if_false, if_true, Bool.false_eq_true]
  by_cases hk : o 0
  · exact ⟨1, [], by simp [hk, intendedTrace], Or.inl rfl⟩
  simp only [hk, if_false, Bool.false_eq_true]
  by_cases h1 : o 1
  · exact ⟨2, [], by simp [h1, intendedTrace], Or.inl rfl⟩
  simp only [h1, if_false, Bool.false_eq_true]
  by_cases h2 : o 2
  · exact ⟨3, [], by simp [h2, intendedTrace], Or.inl rfl⟩
  simp only [h2, if_false, Bool.false_eq_true]
  by_cases h3 : o 3
  · exact ⟨4, [], by simp [h3, intendedTrace], Or.inl rfl⟩
  simp only [h3, if_false, Bool.false_eq_true]
  by_cases h4 : o 4
  · exact ⟨5, cleanupFail false, by simp [h4, intendedTrace], Or.inr (Or.inr rfl)⟩
  simp only [h4, if_false, Bool.false_eq_true]
  by_cases h5 : o 5
  all_goals simp only [h5, if_true, if_false, Bool.false_eq_true]
  · by_cases h6 : o 6
    · refine ⟨7, cleanupFail true, ?_, Or.inr (Or.inl rfl)⟩
      simp [h6, intendedTrace, h5]
    simp only [h6, if_false, Bool.false_eq_true]
    by_cases h7 : o 7
    · refine ⟨8, cleanupFail true, ?_, Or.inr (Or.inl rfl)⟩
      simp [h7, intendedTrace, h5]
    simp only [h7, if_false, Bool.false_eq_true]
    obtain ⟨n, rest, heq, hrest⟩ := afterNav_decomp rows hd pf banner o
      ([Ev.mkdirEv "screenshots", Ev.launch hd, Ev.newContext, Ev.tracingStart] ++
        [Ev.newPage] ++
        [Ev.goto "domcontentloaded" 30000, Ev.goto "commit" 45000,
         Ev.waitVisible (Sel.roleButton "Start") 30000]) 8
    refine ⟨n, rest, ?_, hrest⟩
    rw [heq]
    congr 2
  · obtain ⟨n, rest, heq, hrest⟩ := afterNav_decomp rows hd pf banner o
      ([Ev.mkdirEv "screenshots", Ev.launch hd, Ev.newContext, Ev.tracingStart] ++
        [Ev.newPage] ++ [Ev.goto "domcontentloaded" 30000]) 6
    refine ⟨n, rest, ?_, hrest⟩
    rw [heq]
    congr 2

theorem countP_cons (p : Ev → Bool) (e : Ev) (l : List Ev) :
    countP p (e :: l) = (if p e then 1 else 0) + countP p l := by
  simp only [countP, List.filter_cons]
  split <;> simp [Nat.add_comm]

/-- When `afterNav` returns normally, its summary reports `ok` with one
round per row and its trace is the full straight line. -/
theorem afterNav_ok (rows : List Row) (hd pf : Bool) (banner : Option String)
    (o : Nat → Bool) (pfx : List Ev) (k : Nat) (m : Summary)
    (h : (afterNav rows hd pf banner o pfx k).2 = RunResult.ok m) :
    m.ok = true ∧ m.rounds = rows.length ∧ m.headless = hd ∧ m.perf = pf ∧
      (afterNav rows hd pf banner o pfx k).1 =
        pfx ++ (mainSteps rows (roundTimeout pf) ++ successTail) := by
  unfold afterNav at h ⊢
  by_cases hf : (execSeq o k (mainSteps rows (roundTimeout pf))).2
  · simp [hf] at h
  · have hf2 : (execSeq o k (mainSteps rows (roundTimeout pf))).2 = false := by
      simpa using hf
    have hmain := execSeq_ok o k (mainSteps rows (roundTimeout pf)) hf2
    simp only [hf2, Bool.false_eq_true, if_false] at h ⊢
    by_cases hw : o (k + (mainSteps rows (roundTimeout pf)).length + 4)
    · simp [hw] at h
    · simp only [hw, Bool.false_eq_true, if_false] at h ⊢
      rw [RunResult.ok.injEq] at h
      subst h
      exact ⟨rfl, rfl, rfl, rfl, by rw [hmain, List.append_assoc]⟩

/-- When `runLoaded` returns normally, the rows were nonempty, the summary
reports `ok` with one round per row, and the trace is exactly the intended
straight line (with the retry iff the first navigation timed out). -/
theorem runLoaded_ok (rows : List Row) (hd pf : Bool) (banner : Option String)
    (o : Nat → Bool) (m : Summary)
    (h : (runLoaded rows hd pf banner o).2 = RunResult.ok m) :
    rows ≠ [] ∧ m.ok = true ∧ m.rounds = rows.length ∧ m.headless = hd ∧ m.perf = pf ∧
      (runLoaded rows hd pf banner o).1 = intendedTrace rows hd pf (o 5) := by
  unfold runLoaded at h ⊢
  by_cases h0 : rows.isEmpty
  · simp [h0] at h
  simp only [h0, Bool.false_eq_true, if_false] at h ⊢
  have hne : rows ≠ [] := by simpa [List.isEmpty_iff] using h0
  by_cases hk : o 0
  · simp [hk] at h
  simp only [hk, Bool.false_eq_true, if_false] at h ⊢
  by_cases h1 : o 1
  · simp [h1] at h
  simp only [h1, Bool.false_eq_true, if_false] at h ⊢
  by_cases h2 : o 2
  · simp [h2] at h
  simp only [h2, Bool.false_eq_true, if_false] at h ⊢
  by_cases h3 : o 3
  · simp [h3] at h
  simp only [h3, Bool.false_eq_true, if_false] at h ⊢
  by_cases h4 : o 4
  · simp [h4] at h
  simp only [h4, Bool.false_eq_true, if_false] at h ⊢
  by_cases h5 : o 5
  all_goals simp only [h5, if_true, if_false, Bool.false_eq_true] at h ⊢
  · by_cases h6 : o 6
    · simp [h6] at h
    simp only [h6, Bool.false_eq_true, if_false] at h ⊢
    by_cases h7 : o 7
    · simp [h7] at h
    simp only [h7, Bool.false_eq_true, if_false] at h ⊢
    obtain ⟨ha, hb, hc, hdd, he⟩ := afterNav_ok rows hd pf banner o _ 8 m h
    refine ⟨hne, ha, hb, hc, hdd, ?_⟩
    rw [he]
    simp [intendedTrace, List.append_assoc]
  · obtain ⟨ha, hb, hc, hdd, he⟩ := afterNav_ok rows hd pf banner o _ 6 m h
    refine ⟨hne, ha, hb, hc, hdd, ?_⟩
    rw [he]
    simp [intendedTrace, List.append_assoc]

/-- Navigation count of the intended straight line. -/
theorem isGoto_intended (rows : List Row) (hd pf ns : Bool) :
    countP isGoto (intendedTrace rows hd pf ns) = if ns then 2 else 1 := by
  have hz := countP_roundsTrace_zero isGoto rows (roundTimeout pf)
    (fun _ => rfl) (fun _ _ _ => rfl) rfl (fun _ => rfl)
  have hz2 : (List.filter isGoto (roundsTrace rows (roundTimeout pf))).length = 0 := hz
  unfold intendedTrace mainSteps successTail
  cases ns <;> simp [countP, List.filter_append, isGoto, List.filter, hz2]

/-- Start-click count of the intended straight line. -/
theorem isStartClick_intended (rows : List Row) (hd pf ns : Bool) :
    countP isStartClick (intendedTrace rows hd pf ns) = 1 := by
  have hz := countP_roundsTrace_zero isStartClick rows (roundTimeout pf)
    (fun _ => rfl) (fun _ _ _ => rfl) rfl (fun _ => rfl)
  have hz2 : (List.filter isStartClick (roundsTrace rows (roundTimeout pf))).length = 0 := hz
  unfold intendedTrace mainSteps successTail
  cases ns <;> simp [countP, List.filter_append, isStartClick, List.filter, hz2]

/-- Submit-click count of the intended straight line: one per row. -/
theorem isSubmitClick_intended (rows : List Row) (hd pf ns : Bool) :
    countP isSubmitClick (intendedTrace rows hd pf ns) = rows.length := by
  have hz := submitClick_roundsTrace rows (roundTimeout pf)
  have hz2 : (List.filter isSubmitClick (roundsTrace rows (roundTimeout pf))).length
      = rows.length := hz
  unfold intendedTrace mainSteps successTail
  cases ns <;> simp [countP, List.filter_append, isSubmitClick, List.filter, hz2]

/-- Files written by the intended straight line: the result screenshot and
the JSON summary, in that order. -/
theorem filesWritten_intended (rows : List Row) (hd pf ns : Bool) :
    filesWritten (intendedTrace rows hd pf ns) =
      ["screenshots/result.png", "screenshots/run_summary.json"] := by
  have hz := filesWritten_roundsTrace rows (roundTimeout pf)
  have hz2 : (List.map writesOf (roundsTrace rows (roundTimeout pf))).flatten = [] := hz
  unfold intendedTrace mainSteps successTail
  cases ns <;> simp [filesWritten, writesOf, hz2]

theorem isGoto_cleanupSuffix (rest : List Ev) (h : isCleanupSuffix rest) :
    countP isGoto rest = 0 := by
  rcases h with rfl | rfl | rfl <;> rfl

theorem isStartClick_cleanupSuffix (rest : List Ev) (h : isCleanupSuffix rest) :
    countP isStartClick rest = 0 := by
  rcases h with rfl | rfl | rfl <;> rfl

/-! ### Form-state and ordering lemmas -/

/-- Does this command fill the input named `m`? -/
def fillsName (m : String) : Ev → Bool
  | Ev.fill (Sel.ngName n) _ _ => n == m
  | _ => false

theorem runForm_append (st : String → String) (a b : List Ev) :
    runForm st (a ++ b) = runForm (runForm st a) b := by
  induction a generalizing st with
  | nil => rfl
  | cons e rest ih => simp [runForm, ih]

theorem runForm_no_fill (st : String → String) (l : List Ev) (m : String)
    (h : ∀ e ∈ l, fillsName m e = false) : runForm st l m = st m := by
  induction l generalizing st with
  | nil => rfl
  | cons e rest ih =>
    have he := h e (List.mem_cons_self e rest)
    have hrest : ∀ x ∈ rest, fillsName m x = false :=
      fun x hx => h x (List.mem_cons_of_mem e hx)
    rw [runForm, ih (applyEv st e) hrest]
    cases e with
    | fill sel v u =>
      cases sel with
      | ngName n =>
        have hne : n ≠ m := by simpa [fillsName] using he
        have hne2 : m ≠ n := fun hh => hne hh.symm
        simp [applyEv, hne2]
      | roleButton s => rfl
    | _ => rfl

/-- Running the fill chunks of a field map with pairwise-distinct
`ng-reflect-name`s over a form whose input `m` is empty leaves that input
holding exactly the row's stripped value for `m`'s column. -/
theorem runForm_chunks (fm : List (String × String)) (row : Row) (t : Nat)
    (st : String → String) (col m : String)
    (hmem : (col, m) ∈ fm) (hnd : (fm.map Prod.snd).Nodup) (hst : st m = "") :
    runForm st ((fm.map (fillChunk row t)).flatten) m = rowValue row col := by
  induction fm generalizing st with
  | nil => simp at hmem
  | cons c rest ih =>
    rw [List.map_cons, List.flatten_cons, runForm_append]
    rw [List.map_cons, List.nodup_cons] at hnd
    rcases List.mem_cons.mp hmem with he | hm
    · have hc1 : c.1 = col := by rw [← he]
      have hc2 : c.2 = m := by rw [← he]
      have hrest : ∀ e ∈ (rest.map (fillChunk row t)).flatten, fillsName m e = false := by
        intro e hemem
        obtain ⟨cr, hcr, rfl, _⟩ := mem_chunks row t rest e hemem
        have hne : cr.2 ≠ m := by
          intro hcontra
          exact hnd.1 (hc2 ▸ hcontra ▸ List.mem_map_of_mem Prod.snd hcr)
        simp [fillsName, hne]
      rw [runForm_no_fill _ _ _ hrest]
      unfold fillChunk
      by_cases hv : rowValue row c.1 = ""
      · rw [if_pos hv, hc1] at *
        rw [runForm, hst, ← hv, hc1]
      · rw [if_neg hv]
        simp [runForm, applyEv, hc2, hc1]
    · have hne : c.2 ≠ m := by
        intro hcontra
        exact hnd.1 (hcontra ▸ List.mem_map_of_mem Prod.snd hm)
      have hchunk : runForm st (fillChunk row t c) m = st m := by
        apply runForm_no_fill
        intro e hemem
        unfold fillChunk at hemem
        by_cases hv : rowValue row c.1 = ""
        · simp [hv] at hemem
        · rw [if_neg hv] at hemem
          simp only [List.mem_singleton] at hemem
          subst hemem
          simp [fillsName, hne]
      rw [ih _ hm hnd.2 (hchunk.trans hst)]

/-- The `ng-reflect-name`s of `FIELD_MAP` are pairwise distinct. -/
theorem FIELD_MAP_nodup : (FIELD_MAP.map Prod.snd).Nodup := by decide

/-- After one round, every form field holds exactly the row's stripped
value for its column. -/
theorem runForm_fillRound (row : Row) (t : Nat) (col m : String)
    (hmem : (col, m) ∈ FIELD_MAP) :
    runForm emptyForm (fillRound row t) m = rowValue row col := by
  unfold fillRound
  rw [runForm_append, runForm_append]
  have hloc : ∀ e ∈ FIELD_MAP.map (fun cr => Ev.locate (Sel.ngName cr.2)),
      fillsName m e = false := by
    intro e he
    obtain ⟨cr, _, rfl⟩ := List.mem_map.mp he
    rfl
  have htail : ∀ e ∈ [Ev.click (Sel.roleButton "Submit"), Ev.waitFirstNameEmpty t],
      fillsName m e = false := by
    intro e he
    simp only [List.mem_cons, List.mem_singleton, List.not_mem_nil, or_false] at he
    rcases he with rfl | rfl <;> rfl
  rw [runForm_no_fill _ _ _ htail]
  exact runForm_chunks FIELD_MAP row t _ col m hmem FIELD_MAP_nodup
    ((runForm_no_fill emptyForm _ m hloc).trans rfl)

/-- Each round of the loop appears as a contiguous block of the loop's
trace. -/
theorem fillRound_block (rows : List Row) (row : Row) (t : Nat) (h : row ∈ rows) :
    fillRound row t <:+: roundsTrace rows t := by
  induction rows with
  | nil => simp at h
  | cons r rest ih =>
    rcases List.mem_cons.mp h with rfl | hm
    · cases rest with
      | nil => exact List.infix_rfl
      | cons r2 rest2 =>
        rw [roundsTrace_cons2]
        exact (List.prefix_append _ _).isInfix
    · cases rest with
      | nil => simp at hm
      | cons r2 rest2 =>
        rw [roundsTrace_cons2]
        refine (ih hm).trans ?_
        refine ⟨fillRound r t ++ [Ev.waitFirstNameEmpty t], [], ?_⟩
        simp

/-- Fill and locate commands are neither Submit clicks nor waits. -/
theorem fill_locate_not_submit (e : Ev) (h : isFill e = true ∨ isLocate e = true) :
    isSubmitClick e = false ∧ isWaitCleared e = false := by
  cases e <;> simp [isFill, isLocate, isSubmitClick, isWaitCleared] at h ⊢

/-- Scanning past fill or locate commands with no submit pending keeps
scanning with no submit pending. -/
theorem submitsAwaited_fills (l rest : List Ev)
    (h : ∀ e ∈ l, isFill e = true ∨ isLocate e = true) :
    submitsAwaited false (l ++ rest) = submitsAwaited false rest := by
  induction l with
  | nil => rfl
  | cons e l2 ih =>
    have he := h e (List.mem_cons_self e l2)
    have hl2 : ∀ x ∈ l2, isFill x = true ∨ isLocate x = true :=
      fun x hx => h x (List.mem_cons_of_mem e hx)
    obtain ⟨hnotsub, hnotwait⟩ := fill_locate_not_submit e he
    have hfl : (isFill e || isLocate e) = true := by
      rcases he with he | he <;> simp [he]
    rw [List.cons_append, submitsAwaited, hnotsub, hnotwait, hfl]
    simp [ih hl2]

/-- One round scans cleanly: its own trailing wait discharges its Submit. -/
theorem submitsAwaited_fillRound (row : Row) (t : Nat) (rest : List Ev) :
    submitsAwaited false (fillRound row t ++ rest) = submitsAwaited false rest := by
  unfold fillRound
  rw [List.append_assoc, List.append_assoc]
  rw [submitsAwaited_fills _ _ (by
    intro e he
    obtain ⟨cr, _, rfl⟩ := List.mem_map.mp he
    exact Or.inr rfl)]
  rw [submitsAwaited_fills _ _ (by
    intro e he
    obtain ⟨cr, _, rfl, _⟩ := mem_chunks row t FIELD_MAP e he
    exact Or.inl rfl)]
  rfl

/-- The whole loop scans cleanly. -/
theorem submitsAwaited_roundsTrace (rows : List Row) (t : Nat) (rest : List Ev) :
    submitsAwaited false (roundsTrace rows t ++ rest) = submitsAwaited false rest := by
  induction rows with
  | nil => rfl
  | cons r rest2 ih =>
    cases rest2 with
    | nil =>
      rw [roundsTrace_single]
      exact submitsAwaited_fillRound r t rest
    | cons r2 rest3 =>
      rw [roundsTrace_cons2, List.append_assoc, submitsAwaited_fillRound]
      rw [List.cons_append]
      rw [show submitsAwaited false
          (Ev.waitFirstNameEmpty t :: (roundsTrace (r2 :: rest3) t ++ rest))
          = submitsAwaited false (roundsTrace (r2 :: rest3) t ++ rest) from rfl]
      exact ih

/-- The intended straight line with a fast navigation, written out. -/
theorem intendedTrace_false (rows : List Row) (hd pf : Bool) :
    intendedTrace rows hd pf false =
      [Ev.mkdirEv "screenshots", Ev.launch hd, Ev.newContext, Ev.tracingStart,
       Ev.newPage]
        ++ [Ev.goto "domcontentloaded" 30000]
        ++ mainSteps rows (roundTimeout pf) ++ successTail := rfl

/-- The intended straight line with the navigation retry, written out. -/
theorem intendedTrace_true (rows : List Row) (hd pf : Bool) :
    intendedTrace rows hd pf true =
      [Ev.mkdirEv "screenshots", Ev.launch hd, Ev.newContext, Ev.tracingStart,
       Ev.newPage]
        ++ [Ev.goto "domcontentloaded" 30000, Ev.goto "commit" 45000,
            Ev.waitVisible (Sel.roleButton "Start") 30000]
        ++ mainSteps rows (roundTimeout pf) ++ successTail := rfl

/-- A round never starts before the previous round's wait has observed
the form cleared, over the whole intended straight line. -/
theorem submitsAwaited_intended (rows : List Row) (hd pf ns : Bool) :
    submitsAwaited false (intendedTrace rows hd pf ns) = true := by
  cases ns
  · rw [intendedTrace_false]
    unfold mainSteps successTail
    simp only [List.append_assoc, List.cons_append, List.nil_append]
    rw [show ∀ rest2, submitsAwaited false (Ev.mkdirEv "screenshots" :: Ev.launch hd ::
        Ev.newContext :: Ev.tracingStart :: Ev.newPage ::
        Ev.goto "domcontentloaded" 30000 :: Ev.click (Sel.roleButton "Start") :: rest2)
        = submitsAwaited false rest2 from fun _ => rfl]
    rw [submitsAwaited_roundsTrace]
    rfl
  · rw [intendedTrace_true]
    unfold mainSteps successTail
    simp only [List.append_assoc, List.cons_append, List.nil_append]
    rw [show ∀ rest2, submitsAwaited false (Ev.mkdirEv "screenshots" :: Ev.launch hd ::
        Ev.newContext :: Ev.tracingStart :: Ev.newPage ::
        Ev.goto "domcontentloaded" 30000 :: Ev.goto "commit" 45000 ::
        Ev.waitVisible (Sel.roleButton "Start") 30000 ::
        Ev.click (Sel.roleButton "Start") :: rest2)
        = submitsAwaited false rest2 from fun _ => rfl]
    rw [submitsAwaited_roundsTrace]
    rfl

/-! ### Loader lemmas -/

theorem lookup_mem_values {α β : Type} [BEq α] (l : List (α × β)) (a : α) (b : β)
    (h : l.lookup a = some b) : b ∈ l.map Prod.snd := by
  induction l with
  | nil => simp [List.lookup] at h
  | cons p rest ih =>
    obtain ⟨k, v⟩ := p
    rw [List.lookup] at h
    by_cases hk : (a == k) = true
    · rw [hk] at h
      simp only [Option.some.injEq] at h
      subst h
      exact List.mem_cons_self _ _
    · rw [Bool.not_eq_true] at hk
      rw [hk] at h
      exact List.mem_cons_of_mem _ (ih h)

/-- Whatever `_CANONICAL_BY_TOKEN` yields is one of the seven canonical
field names. -/
theorem canonicalByToken_mem (t c : String) (h : canonicalByToken t = some c) :
    c ∈ canonicalNames := by
  have hv := lookup_mem_values CANONICAL_BY_TOKEN t c h
  rw [show CANONICAL_BY_TOKEN.map Prod.snd =
    ["First Name", "First Name", "Last Name", "Last Name", "Company Name",
     "Company Name", "Role in Company", "Role in Company", "Address", "Email",
     "Phone Number", "Phone Number", "Phone Number"] from rfl] at hv
  simp only [List.mem_cons, List.not_mem_nil, or_false] at hv
  rcases hv with rfl | rfl | rfl | rfl | rfl | rfl | rfl | rfl | rfl | rfl | rfl | rfl | rfl <;>
    decide

/-- A header whose token is a known spelling is renamed to its canonical
name. -/
theorem renameHeader_canonical (col c : String) (h : canonicalByToken (tok col) = some c) :
    renameHeader col = c := by
  unfold renameHeader
  rw [h]
  rfl

/-- The i-th output record of `read_rows` is built from the i-th file row. -/
theorem read_rows_getElem? (s : Sheet) (lim : Option Nat) (i : Nat) (r : Row)
    (h : (read_rows s lim)[i]? = some r) :
    s.cells[i]?.map (rowRecord s.headers) = some r := by
  unfold read_rows at h
  cases lim with
  | none =>
    rw [List.getElem?_map] at h
    exact h
  | some n =>
    rw [List.getElem?_take] at h
    by_cases hi : i < n
    · rw [if_pos hi, List.getElem?_map] at h
      exact h
    · rw [if_neg hi] at h
      exact absurd h (by simp)

/-- The keys of each record are the renamed headers, in header order. -/
theorem rowRecord_keys (hs : List String) (r : List (Option String)) :
    (rowRecord hs r).map Prod.fst = hs.map renameHeader := by
  unfold rowRecord
  rw [List.map_map]
  have : (Prod.fst ∘ fun p : Nat × String =>
      (renameHeader p.2, procCell ((r.get? p.1).getD none)))
      = renameHeader ∘ Prod.snd := rfl
  rw [this, ← List.map_map, List.enum_map_snd]

theorem rowRecord_length (hs : List String) (r : List (Option String)) :
    (rowRecord hs r).length = hs.length := by
  unfold rowRecord
  rw [List.length_map, List.enum_length]

/-- The j-th entry of a record, by position. -/
theorem rowRecord_getElem? (hs : List String) (r : List (Option String)) (j : Nat) :
    (rowRecord hs r)[j]? = (hs[j]?).map
      (fun hcol => (renameHeader hcol, procCell ((r.get? j).getD none))) := by
  unfold rowRecord
  rw [List.getElem?_map, List.getElem?_enum]
  cases hs[j]? <;> rfl

/-- Every value in a record is a processed cell. -/
theorem mem_rowRecord (hs : List String) (r : List (Option String))
    (p : String × String) (h : p ∈ rowRecord hs r) :
    ∃ j hcol, hs[j]? = some hcol ∧
      p = (renameHeader hcol, procCell ((r.get? j).getD none)) := by
  unfold rowRecord at h
  obtain ⟨q, hq, rfl⟩ := List.mem_map.mp h
  obtain ⟨j, hj⟩ := List.mem_iff_getElem?.mp hq
  rw [List.getElem?_enum] at hj
  cases hh : hs[j]? with
  | none => rw [hh] at hj; simp at hj
  | some hcol =>
    rw [hh] at hj
    have hj2 : (j, hcol) = q := by simpa using hj
    refine ⟨j, hcol, hh, ?_⟩
    rw [← hj2]

/-- Every value `read_rows` produces is already stripped. -/
theorem read_rows_stripped (s : Sheet) (lim : Option Nat) (r : Row)
    (hr : r ∈ read_rows s lim) (p : String × String) (hp : p ∈ r) :
    pyStrip p.2 = p.2 := by
  have hr2 : r ∈ s.cells.map (rowRecord s.headers) := by
    unfold read_rows at hr
    cases lim with
    | none => exact hr
    | some n => exact List.mem_of_mem_take hr
  obtain ⟨cr, _, rfl⟩ := List.mem_map.mp hr2
  obtain ⟨j, hcol, _, rfl⟩ := mem_rowRecord s.headers cr p hp
  exact pyStrip_idempotent _

theorem isGoto_mainSteps (rows : List Row) (t : Nat) :
    countP isGoto (mainSteps rows t) = 0 := by
  have hz := countP_roundsTrace_zero isGoto rows t
    (fun _ => rfl) (fun _ _ _ => rfl) rfl (fun _ => rfl)
  have hz2 : (List.filter isGoto (roundsTrace rows t)).length = 0 := hz
  unfold mainSteps
  simp [countP, List.filter_append, List.filter, isGoto, hz2]

theorem isLaunch_intended (rows : List Row) (hd pf ns : Bool) :
    countP isLaunch (intendedTrace rows hd pf ns) = 1 := by
  have hz := countP_roundsTrace_zero isLaunch rows (roundTimeout pf)
    (fun _ => rfl) (fun _ _ _ => rfl) rfl (fun _ => rfl)
  have hz2 : (List.filter isLaunch (roundsTrace rows (roundTimeout pf))).length = 0 := hz
  unfold intendedTrace mainSteps successTail
  cases ns <;> simp [countP, List.filter_append, isLaunch, List.filter, hz2]

theorem isNewContextEv_intended (rows : List Row) (hd pf ns : Bool) :
    countP isNewContextEv (intendedTrace rows hd pf ns) = 1 := by
  have hz := countP_roundsTrace_zero isNewContextEv rows (roundTimeout pf)
    (fun _ => rfl) (fun _ _ _ => rfl) rfl (fun _ => rfl)
  have hz2 : (List.filter isNewContextEv (roundsTrace rows (roundTimeout pf))).length = 0 := hz
  unfold intendedTrace mainSteps successTail
  cases ns <;> simp [countP, List.filter_append, isNewContextEv, List.filter, hz2]

theorem isNewPageEv_intended (rows : List Row) (hd pf ns : Bool) :
    countP isNewPageEv (intendedTrace rows hd pf ns) = 1 := by
  have hz := countP_roundsTrace_zero isNewPageEv rows (roundTimeout pf)
    (fun _ => rfl) (fun _ _ _ => rfl) rfl (fun _ => rfl)
  have hz2 : (List.filter isNewPageEv (roundsTrace rows (roundTimeout pf))).length = 0 := hz
  unfold intendedTrace mainSteps successTail
  cases ns <;> simp [countP, List.filter_append, isNewPageEv, List.filter, hz2]

theorem mem_filesWritten (q : String) (l : List Ev) :
    q ∈ filesWritten l ↔ ∃ e ∈ l, q ∈ writesOf e := by
  simp [filesWritten, List.mem_flatten]

/-- Files written by the failure cleanup. -/
theorem filesWritten_cleanupSuffix (rest : List Ev) (h : isCleanupSuffix rest)
    (q : String) (hq : q ∈ filesWritten rest) :
    q ∈ ["screenshots/error.png", "screenshots/trace.zip"] := by
  rcases h with rfl | rfl | rfl
  · simp [filesWritten] at hq
  · rw [show filesWritten (cleanupFail true)
        = ["screenshots/error.png", "screenshots/trace.zip"] from rfl] at hq
    simpa using hq
  · rw [show filesWritten (cleanupFail false)
        = ["screenshots/trace.zip"] from rfl] at hq
    simp at hq
    simp [hq]

/-! ### Claim theorems -/

/-- C2: `read_rows` turns the spreadsheet at the given path into an
ordered sequence of row mappings: the i-th mapping is built from the i-th
file row (order preserved), the keys of each mapping are the renamed
headers in header order, and every header whose normalized token matches
a known spelling is renamed to its canonical field name, one of the seven
canonical names. -/
theorem claim_C2_read_rows (s : Sheet) (lim : Option Nat) :
    (∀ (i : Nat) (r : Row), (read_rows s lim)[i]? = some r →
      s.cells[i]?.map (rowRecord s.headers) = some r) ∧
    (∀ r ∈ read_rows s lim, r.map Prod.fst = s.headers.map renameHeader) ∧
    (∀ col c, canonicalByToken (tok col) = some c →
      renameHeader col = c ∧ c ∈ canonicalNames) := by
  refine ⟨fun i r h => read_rows_getElem? s lim i r h, fun r hr => ?_,
    fun col c h => ⟨renameHeader_canonical col c h, canonicalByToken_mem _ c h⟩⟩
  have hr2 : r ∈ s.cells.map (rowRecord s.headers) := by
    unfold read_rows at hr
    cases lim with
    | none => exact hr
    | some n => exact List.mem_of_mem_take hr
  obtain ⟨cr, _, rfl⟩ := List.mem_map.mp hr2
  exact rowRecord_keys s.headers cr

/-- Witness for C2 on a concrete messy-header sheet. -/
theorem claim_C2_read_rows_witness :
    (Sheet.mk [" first name ", "LAST  NAME"] [[some "Ada", some " L "]]).cells[0]?.map
        (rowRecord [" first name ", "LAST  NAME"])
        = some [("First Name", "Ada"), ("Last Name", "L")] ∧
      renameHeader "LAST  NAME" = "Last Name" ∧ "Last Name" ∈ canonicalNames := by
  have h := claim_C2_read_rows ⟨[" first name ", "LAST  NAME"], [[some "Ada", some " L "]]⟩
    (some 10)
  exact ⟨h.1 0 [("First Name", "Ada"), ("Last Name", "L")] (by decide),
    h.2.2 "LAST  NAME" "Last Name" (by decide)⟩

/-- C3 as stated is refuted: on a one-row sheet, the default `limit=10`
call already returns every row of the file although the limit is not
`None`, so returning every row is not exclusive to `limit=None`. -/
theorem claim_C3_counterexample :
    (read_rows ⟨["First Name"], [[some "Ada"]]⟩).length
        = (Sheet.mk ["First Name"] [[some "Ada"]]).cells.length ∧
      (some 10 : Option Nat) ≠ none := by
  exact ⟨rfl, by simp⟩

/-- C3 amended: with its default `limit=10`, `read_rows` returns the
first `min 10 n` of the file's `n` rows, silently dropping any rows after
the tenth; a call with `limit=None` returns every row of the file; and a
numeric limit at least `n` also returns every row. -/
theorem claim_C3_amended (s : Sheet) :
    read_rows s (some 10) = (read_rows s none).take 10 ∧
    (read_rows s (some 10)).length = min 10 s.cells.length ∧
    (read_rows s none).length = s.cells.length ∧
    (∀ n, s.cells.length ≤ n → read_rows s (some n) = read_rows s none) := by
  refine ⟨rfl, ?_, by simp [read_rows], fun n hn => ?_⟩
  · simp [read_rows]
  · unfold read_rows
    simp only
    rw [List.take_of_length_le (by simpa using hn)]

/-- Witness for the amended C3. -/
theorem claim_C3_amended_witness :
    read_rows ⟨["A"], [[some "x"]]⟩ (some 5) = read_rows ⟨["A"], [[some "x"]]⟩ none :=
  (claim_C3_amended ⟨["A"], [[some "x"]]⟩).2.2.2 5 (by decide)

/-- C9: if the spreadsheet yields no rows, the run raises `SystemExit`
with an empty command trace: no browser launched, no directory created,
no artifact written. -/
theorem claim_C9_empty_rows (s : Sheet) (hd pf : Bool) (banner : Option String)
    (o : Nat → Bool) (h : read_rows s = []) :
    run_rpa_challenge s hd pf banner o = ([], RunResult.sysExit) := by
  unfold run_rpa_challenge runLoaded
  rw [h]
  rfl

/-- Witness for C9 on a sheet with no data rows. -/
theorem claim_C9_empty_rows_witness :
    run_rpa_challenge ⟨["First Name"], []⟩ false false none (fun _ => false)
      = ([], RunResult.sysExit) :=
  claim_C9_empty_rows ⟨["First Name"], []⟩ false false none (fun _ => false) rfl

/-- C10: every row mapping `read_rows` produces holds only string values
with no leading or trailing whitespace (stripping is a fixpoint on them),
each mapping has one entry per header, and a missing / NaN cell surfaces
as the empty string. -/
theorem claim_C10_cell_invariants (s : Sheet) (lim : Option Nat) :
    (∀ r ∈ read_rows s lim, (∀ p ∈ r, pyStrip p.2 = p.2) ∧
      r.length = s.headers.length) ∧
    procCell none = "" ∧
    (∀ (i j : Nat) (r : Row) (p : String × String),
      (read_rows s lim)[i]? = some r → r[j]? = some p →
      (∀ cr, s.cells[i]? = some cr → (cr.get? j).getD none = none) → p.2 = "") := by
  refine ⟨fun r hr => ⟨fun p hp => read_rows_stripped s lim r hr p hp, ?_⟩, rfl,
    fun i j r p hi hj hnan => ?_⟩
  · have hr2 : r ∈ s.cells.map (rowRecord s.headers) := by
      unfold read_rows at hr
      cases lim with
      | none => exact hr
      | some n => exact List.mem_of_mem_take hr
    obtain ⟨cr, _, rfl⟩ := List.mem_map.mp hr2
    exact rowRecord_length s.headers cr
  · have horder := read_rows_getElem? s lim i r hi
    cases hc : s.cells[i]? with
    | none => rw [hc] at horder; exact absurd horder (by simp)
    | some cr =>
      rw [hc] at horder
      have hr : rowRecord s.headers cr = r := by simpa using horder
      rw [← hr, rowRecord_getElem?] at hj
      cases hh : s.headers[j]? with
      | none => rw [hh] at hj; exact absurd hj (by simp)
      | some hcol =>
        rw [hh] at hj
        have hp : (renameHeader hcol, procCell ((cr.get? j).getD none)) = p := by
          simpa using hj
        rw [← hp]
        rw [hnan cr hc]
        rfl

/-- Witness for C10: a NaN cell of a concrete sheet surfaces as `""`. -/
theorem claim_C10_cell_invariants_witness :
    (("B", "") : String × String).2 = "" :=
  (claim_C10_cell_invariants ⟨["A", "B"], [[some " x ", none]]⟩ (some 10)).2.2 0 1
    [("A", "x"), ("B", "")] ("B", "") (by decide) (by decide)
    (fun cr hcr => by cases hcr; rfl)

/-- C1: for every row of the loaded sequence the loop's round block
locates each of the seven form fields by its stable `ng-reflect-name`
attribute (the only locator kind a round uses), fills so that each
field ends up holding exactly that row's stripped value, clicks the
Submit button exactly once, and then waits until the first-name field
reads empty. -/
theorem claim_C1_fill_round (rows : List Row) (row : Row) (t : Nat) (hrow : row ∈ rows) :
    (fillRound row t <:+: roundsTrace rows t) ∧
    (∀ cr ∈ FIELD_MAP, Ev.locate (Sel.ngName cr.2) ∈ fillRound row t) ∧
    (∀ sel v u, Ev.fill sel v u ∈ fillRound row t →
      ∃ cr ∈ FIELD_MAP, sel = Sel.ngName cr.2 ∧ v = rowValue row cr.1 ∧ u = t) ∧
    countP isSubmitClick (fillRound row t) = 1 ∧
    (∃ pre, fillRound row t =
      pre ++ [Ev.click (Sel.roleButton "Submit"), Ev.waitFirstNameEmpty t]) ∧
    (∀ cr ∈ FIELD_MAP, runForm emptyForm (fillRound row t) cr.2 = rowValue row cr.1) := by
  refine ⟨fillRound_block rows row t hrow, ?_, ?_, submitClick_fillRound row t, ?_, ?_⟩
  · intro cr hcr
    unfold fillRound
    exact List.mem_append_left _ (List.mem_append_left _
      (List.mem_map_of_mem (fun cr2 => Ev.locate (Sel.ngName cr2.2)) hcr))
  · intro sel v u hmem
    unfold fillRound at hmem
    rw [List.append_assoc, List.mem_append, List.mem_append] at hmem
    rcases hmem with hmem | hmem | hmem
    · obtain ⟨cr, _, heq⟩ := List.mem_map.mp hmem
      exact absurd heq (by simp)
    · obtain ⟨cr, hcr, heq, _⟩ := mem_chunks row t FIELD_MAP _ hmem
      rw [Ev.fill.injEq] at heq
      exact ⟨cr, hcr, heq.1, heq.2.1, heq.2.2⟩
    · simp at hmem
  · refine ⟨(FIELD_MAP.map (fun cr => Ev.locate (Sel.ngName cr.2)))
      ++ (FIELD_MAP.map (fillChunk row t)).flatten, ?_⟩
    unfold fillRound
    rw [List.append_assoc]
  · intro cr hcr
    have : (cr.1, cr.2) ∈ FIELD_MAP := by simpa using hcr
    exact runForm_fillRound row t cr.1 cr.2 this

/-- Witness for C1 on a concrete row. -/
theorem claim_C1_fill_round_witness :
    countP isSubmitClick (fillRound [("First Name", "Ada")] 10000) = 1 ∧
    runForm emptyForm (fillRound [("First Name", "Ada")] 10000) "labelFirstName" = "Ada" := by
  have h := claim_C1_fill_round [[("First Name", "Ada")]] [("First Name", "Ada")] 10000
    (List.mem_cons_self _ _)
  refine ⟨h.2.2.2.1, ?_⟩
  have h2 := h.2.2.2.2.2 ("First Name", "labelFirstName") (by decide)
  rw [h2]
  decide

/-- C6: a run that returns normally reports `ok = true`, reports as many
rounds as rows were loaded, clicked Submit exactly once per loaded row,
and wrote the JSON summary. -/
theorem claim_C6_rounds_summary (s : Sheet) (hd pf : Bool) (banner : Option String)
    (o : Nat → Bool) (m : Summary)
    (h : (run_rpa_challenge s hd pf banner o).2 = RunResult.ok m) :
    m.ok = true ∧ m.rounds = (read_rows s).length ∧
      countP isSubmitClick (run_rpa_challenge s hd pf banner o).1
        = (read_rows s).length ∧
      Ev.writeFile "screenshots/run_summary.json" ∈ (run_rpa_challenge s hd pf banner o).1 := by
  unfold run_rpa_challenge at h ⊢
  obtain ⟨hne, hok, hr, _, _, htr⟩ := runLoaded_ok _ hd pf banner o m h
  refine ⟨hok, hr, ?_, ?_⟩
  · rw [htr, isSubmitClick_intended]
  · rw [htr]
    unfold intendedTrace
    exact List.mem_append_right _ (by decide)

/-- Witness for C6 on a concrete one-row successful run. -/
theorem claim_C6_rounds_summary_witness :
    countP isSubmitClick
      (run_rpa_challenge ⟨["First Name"], [[some "Ada"]]⟩ false false none
        (fun _ => false)).1 = 1 := by
  have h := claim_C6_rounds_summary ⟨["First Name"], [[some "Ada"]]⟩ false false none
    (fun _ => false)
    { ok := true, rounds := 1, headless := false, perf := false, site_timer := "" }
    (by decide)
  have h2 := h.2.2.1
  rw [h2]
  decide

/-- C7: rounds are processed strictly sequentially on a single page of a
single browser session: a successful run's trace never fills or locates a
field between a Submit click and the wait that observes the form cleared,
and it launches exactly one browser, one context, and one page. -/
theorem claim_C7_sequential (s : Sheet) (hd pf : Bool) (banner : Option String)
    (o : Nat → Bool) (m : Summary)
    (h : (run_rpa_challenge s hd pf banner o).2 = RunResult.ok m) :
    submitsAwaited false (run_rpa_challenge s hd pf banner o).1 = true ∧
    countP isLaunch (run_rpa_challenge s hd pf banner o).1 = 1 ∧
    countP isNewContextEv (run_rpa_challenge s hd pf banner o).1 = 1 ∧
    countP isNewPageEv (run_rpa_challenge s hd pf banner o).1 = 1 := by
  unfold run_rpa_challenge at h ⊢
  obtain ⟨_, _, _, _, _, htr⟩ := runLoaded_ok _ hd pf banner o m h
  rw [htr]
  exact ⟨submitsAwaited_intended _ hd pf _, isLaunch_intended _ hd pf _,
    isNewContextEv_intended _ hd pf _, isNewPageEv_intended _ hd pf _⟩

/-- Witness for C7 on a concrete one-row successful run. -/
theorem claim_C7_sequential_witness :
    submitsAwaited false
      (run_rpa_challenge ⟨["First Name"], [[some "Ada"]]⟩ false false none
        (fun _ => false)).1 = true :=
  (claim_C7_sequential ⟨["First Name"], [[some "Ada"]]⟩ false false none (fun _ => false)
    { ok := true, rounds := 1, headless := false, perf := false, site_timer := "" }
    (by decide)).1

/-- C8: the intended control flow opens the page and then clicks the
Start button exactly once, strictly before any field is located or
filled and before any Submit; and no run's trace ever clicks Start more
than once. -/
theorem claim_C8_start_before_rounds (rows : List Row) (hd pf ns : Bool) :
    (∃ a b, intendedTrace rows hd pf ns = a ++ Ev.click (Sel.roleButton "Start") :: b ∧
      1 ≤ countP isGoto a ∧ countP isFill a = 0 ∧ countP isLocate a = 0 ∧
      countP isSubmitClick a = 0) ∧
    countP isStartClick (intendedTrace rows hd pf ns) = 1 ∧
    (∀ banner o, countP isStartClick (runLoaded rows hd pf banner o).1 ≤ 1) := by
  refine ⟨?_, isStartClick_intended rows hd pf ns, fun banner o => ?_⟩
  · cases ns
    · refine ⟨[Ev.mkdirEv "screenshots", Ev.launch hd, Ev.newContext, Ev.tracingStart,
        Ev.newPage, Ev.goto "domcontentloaded" 30000],
        roundsTrace rows (roundTimeout pf)
          ++ [Ev.screenshot "screenshots/result.png"] ++ successTail, ?_, ?_, ?_, ?_, ?_⟩
      · rw [intendedTrace_false]
        unfold mainSteps
        simp [List.append_assoc]
      · show (1 : Nat) ≤ 1
        omega
      · rfl
      · rfl
      · rfl
    · refine ⟨[Ev.mkdirEv "screenshots", Ev.launch hd, Ev.newContext, Ev.tracingStart,
        Ev.newPage, Ev.goto "domcontentloaded" 30000, Ev.goto "commit" 45000,
        Ev.waitVisible (Sel.roleButton "Start") 30000],
        roundsTrace rows (roundTimeout pf)
          ++ [Ev.screenshot "screenshots/result.png"] ++ successTail, ?_, ?_, ?_, ?_, ?_⟩
      · rw [intendedTrace_true]
        unfold mainSteps
        simp [List.append_assoc]
      · show (1 : Nat) ≤ 2
        omega
      · rfl
      · rfl
      · rfl
  · obtain ⟨n, rest, heq, hrest⟩ := runLoaded_decomp rows hd pf banner o
    rw [heq, countP_append]
    have h1 : countP isStartClick ((intendedTrace rows hd pf (o 5)).take n)
        ≤ countP isStartClick (intendedTrace rows hd pf (o 5)) :=
      countP_le_of_front ( List.take_prefix n _)
    rw [isStartClick_intended] at h1
    rw [isStartClick_cleanupSuffix rest hrest]
    omega

/-- C4: at most two navigations ever happen; without a first-navigation
timeout at most one; when the initial navigation times out (and the run
got that far) exactly one retry navigation follows, with the weaker
`commit` wait condition and the longer 45000ms timeout, followed (when
the retry itself does not raise) by waiting for the Start button; and
every trace is a prefix of the straight-line sequence plus at most the
fixed cleanup, so no command is ever re-attempted: there is no other
retry or backoff anywhere in a run. -/
theorem claim_C4_nav_retry (rows : List Row) (hd pf : Bool) (banner : Option String)
    (o : Nat → Bool) :
    countP isGoto (runLoaded rows hd pf banner o).1 ≤ 2 ∧
    (o 5 = false → countP isGoto (runLoaded rows hd pf banner o).1 ≤ 1) ∧
    (rows ≠ [] → o 0 = false → o 1 = false → o 2 = false → o 3 = false → o 4 = false →
      o 5 = true →
      ∃ tail, (runLoaded rows hd pf banner o).1 =
        [Ev.mkdirEv "screenshots", Ev.launch hd, Ev.newContext, Ev.tracingStart,
         Ev.newPage, Ev.goto "domcontentloaded" 30000, Ev.goto "commit" 45000] ++ tail ∧
        countP isGoto tail = 0 ∧
        (o 6 = false →
          ∃ tail2, tail = Ev.waitVisible (Sel.roleButton "Start") 30000 :: tail2)) ∧
    (∃ n rest, (runLoaded rows hd pf banner o).1 =
      (intendedTrace rows hd pf (o 5)).take n ++ rest ∧ isCleanupSuffix rest) := by
  obtain ⟨n, rest, heq, hrest⟩ := runLoaded_decomp rows hd pf banner o
  have hbound : countP isGoto (runLoaded rows hd pf banner o).1
      ≤ countP isGoto (intendedTrace rows hd pf (o 5)) := by
    rw [heq, countP_append, isGoto_cleanupSuffix rest hrest]
    have := countP_le_of_front (p := isGoto)
      ( List.take_prefix n (intendedTrace rows hd pf (o 5)))
    omega
  refine ⟨?_, ?_, ?_, ⟨n, rest, heq, hrest⟩⟩
  · rw [isGoto_intended] at hbound
    split at hbound <;> omega
  · intro h5
    rw [isGoto_intended, h5] at hbound
    simpa using hbound
  · intro hne h0 h1 h2 h3 h4 h5
    have hee : rows.isEmpty = false := by simpa using hne
    unfold runLoaded
    simp only [hee, h0, h1, h2, h3, h4, h5, Bool.false_eq_true, if_false, if_true]
    by_cases h6 : o 6
    · simp only [h6, if_true]
      exact ⟨cleanupFail true, by simp, rfl, fun hc => absurd hc (by simp)⟩
    · simp only [h6, Bool.false_eq_true, if_false]
      by_cases h7 : o 7
      · simp only [h7, if_true]
        exact ⟨Ev.waitVisible (Sel.roleButton "Start") 30000 :: cleanupFail true,
          by simp, rfl, fun _ => ⟨cleanupFail true, rfl⟩⟩
      · simp only [h7, Bool.false_eq_true, if_false]
        unfold afterNav
        by_cases hf : (execSeq o 8 (mainSteps rows (roundTimeout pf))).2
        · simp only [hf, if_true]
          refine ⟨Ev.waitVisible (Sel.roleButton "Start") 30000 ::
            ((execSeq o 8 (mainSteps rows (roundTimeout pf))).1 ++ cleanupFail true),
            by simp, ?_, fun _ => ⟨_, rfl⟩⟩
          rw [countP_cons, countP_append]
          have hr1 : countP isGoto (execSeq o 8 (mainSteps rows (roundTimeout pf))).1 ≤
              countP isGoto (mainSteps rows (roundTimeout pf)) :=
            countP_le_of_front (execSeq_front o 8 _)
          rw [isGoto_mainSteps] at hr1
          have hcl : countP isGoto (cleanupFail true) = 0 := rfl
          simp only [isGoto, hcl, Bool.false_eq_true, if_false]
          omega
        · have hf2 : (execSeq o 8 (mainSteps rows (roundTimeout pf))).2 = false := by
            simpa using hf
          have hmain := execSeq_ok o 8 _ hf2
          simp only [hf2, Bool.false_eq_true, if_false, hmain]
          have hcount : countP isGoto (Ev.waitVisible (Sel.roleButton "Start") 30000 ::
              (mainSteps rows (roundTimeout pf) ++ successTail)) = 0 := by
            rw [countP_cons, countP_append, isGoto_mainSteps]
            rfl
          split
          · exact ⟨Ev.waitVisible (Sel.roleButton "Start") 30000 ::
              (mainSteps rows (roundTimeout pf) ++ successTail),
              by simp, hcount, fun _ => ⟨_, rfl⟩⟩
          · exact ⟨Ev.waitVisible (Sel.roleButton "Start") 30000 ::
              (mainSteps rows (roundTimeout pf) ++ successTail),
              by simp, hcount, fun _ => ⟨_, rfl⟩⟩

/-- Witness for C4: a run whose first navigation times out. -/
theorem claim_C4_nav_retry_witness :
    ∃ tail, (runLoaded [[("First Name", "Ada")]] false false none (fun k => k == 5)).1 =
      [Ev.mkdirEv "screenshots", Ev.launch false, Ev.newContext, Ev.tracingStart,
       Ev.newPage, Ev.goto "domcontentloaded" 30000, Ev.goto "commit" 45000] ++ tail ∧
      countP isGoto tail = 0 ∧
      ((fun k : Nat => k == 5) 6 = false →
        ∃ tail2, tail = Ev.waitVisible (Sel.roleButton "Start") 30000 :: tail2) :=
  (claim_C4_nav_retry [[("First Name", "Ada")]] false false none (fun k => k == 5)).2.2.1
    (by simp) rfl rfl rfl rfl rfl rfl

/-- C5 as stated is refuted: a run that fails (here the Start click
raises) writes `screenshots/trace.zip`, which is neither a screenshot
nor the JSON summary, alongside the error screenshot. -/
theorem claim_C5_counterexample :
    filesWritten (runLoaded [[("First Name", "Ada")]] false false none (fun k => k == 6)).1
        = ["screenshots/error.png", "screenshots/trace.zip"] ∧
      (runLoaded [[("First Name", "Ada")]] false false none (fun k => k == 6)).2
        = RunResult.exn ∧
      "screenshots/trace.zip" ∉ ["screenshots/result.png", "screenshots/run_summary.json"] :=
  ⟨by decide, by decide, by decide⟩

/-- C5 amended: a run persists no state other than its artifacts under
`screenshots/`: a successful run writes exactly the result screenshot and
the JSON summary, and any run at all writes at most those plus the
best-effort error screenshot and the trace archive of a failing run. -/
theorem claim_C5_artifacts (rows : List Row) (hd pf : Bool) (banner : Option String)
    (o : Nat → Bool) :
    (∀ m, (runLoaded rows hd pf banner o).2 = RunResult.ok m →
      filesWritten (runLoaded rows hd pf banner o).1 =
        ["screenshots/result.png", "screenshots/run_summary.json"]) ∧
    (∀ q ∈ filesWritten (runLoaded rows hd pf banner o).1,
      q ∈ ["screenshots/result.png", "screenshots/run_summary.json",
           "screenshots/error.png", "screenshots/trace.zip"]) := by
  obtain ⟨n, rest, heq, hrest⟩ := runLoaded_decomp rows hd pf banner o
  refine ⟨fun m h => ?_, fun q hq => ?_⟩
  · obtain ⟨_, _, _, _, _, htr⟩ := runLoaded_ok rows hd pf banner o m h
    rw [htr, filesWritten_intended]
  · rw [heq, filesWritten_append] at hq
    rcases List.mem_append.mp hq with hq | hq
    · obtain ⟨e, he, hqe⟩ := (mem_filesWritten q _).mp hq
      have he2 : e ∈ intendedTrace rows hd pf (o 5) := List.mem_of_mem_take he
      have hmem : q ∈ filesWritten (intendedTrace rows hd pf (o 5)) :=
        (mem_filesWritten q _).mpr ⟨e, he2, hqe⟩
      rw [filesWritten_intended] at hmem
      simp only [List.mem_cons, List.not_mem_nil, or_false] at hmem ⊢
      tauto
    · have := filesWritten_cleanupSuffix rest hrest q hq
      simp only [List.mem_cons, List.not_mem_nil, or_false] at this ⊢
      tauto

/-- Witness for the amended C5 on a concrete successful run. -/
theorem claim_C5_artifacts_witness :
    filesWritten (runLoaded [[("First Name", "Ada")]] false false none (fun _ => false)).1
      = ["screenshots/result.png", "screenshots/run_summary.json"] :=
  (claim_C5_artifacts [[("First Name", "Ada")]] false false none (fun _ => false)).1
    { ok := true, rounds := 1, headless := false, perf := false, site_timer := "" }
    (by decide)

end RPAChallenge
